import Mathlib

/-!
Verification development for the zconvo.lv2 convolution plugin.

Shallow embedding of:
 * the customized zita ("zeta") convolver core (`src/src/audiosrc.h`, second
   part of the file: `Convproc`, `Convlevel`, `readout`, `readtail`, …),
 * the engine facade and hot-swap machinery (`src/src/lv2.cc`:
   `work`, `work_response`, `load_ir_worker`, `run`, `run_cfg`),
 * the IR loading front end (`src/unnamed/part_006`: `Convolver::Convolver`,
   `Convolver::reconfigure`, `TimeDomainConvolver`).

Audio samples are modelled as rationals (the C code uses `float`; every
operation relevant to the claims is addition, multiplication and copying,
which are exact over `ℚ`).  The external FFT library (fftw) is not part of
the repository; forward and inverse transforms are taken as parameters of
the functions that invoke them.  Spectra are `ℚ × ℚ` valued functions.
-/

namespace ZConvo

abbrev Sample := ℚ

abbrev Cpx := ℚ × ℚ

/-- Complex multiply, as written inline in `Convlevel::process`:
re = a.re*b.re - a.im*b.im, im = a.re*b.im + a.im*b.re. -/
def cmul (a b : Cpx) : Cpx :=
  (a.1 * b.1 - a.2 * b.2, a.1 * b.2 + a.2 * b.1)

/-- Complex addition (the `+=` accumulation on `_freq_data`). -/
def cadd (a b : Cpx) : Cpx :=
  (a.1 + b.1, a.2 + b.2)

/-! ### Constants of the convolver core

Modelled from the spec: the header `zeta-convolver.h` is not among the
provided sources (only `zeta-convolver.cc` is, concatenated into
`src/src/audiosrc.h`).  The `.cc` states it is "a customized version of
Fons Adriaensen's libzita-convolver"; the limit constants below are those
of libzita-convolver 4, which are consistent with every use in the
provided sources (`reconfigure` uses quantum 64, block sizes are clamped
to [64, 8192], the spec's §3.2 I1 refers to `MAXPART`). -/

def MAXINP : Nat := 64

def MAXOUT : Nat := 64

def MINPART : Nat := 64

def MAXPART : Nat := 8192

def MAXDIVIS : Nat := 16

def MINQUANT : Nat := 16

def MAXQUANT : Nat := 8192

/-- Modelled from the spec: `FL_LOAD` status bit (missing `zeta-convolver.h`). -/
def FL_LOAD : Nat := 0x01000000

/-- Modelled from the spec: `OPT_LATE_CONTIN` option bit (missing `zeta-convolver.h`). -/
def OPT_LATE_CONTIN : Nat := 4

/-- Return codes of the core API (`Converror`): the numeric values live in the
missing header, so an inductive is used; `ok` stands for the C return 0. -/
inductive CRes where
  | ok
  | bad_state
  | bad_param
  | mem_alloc
deriving DecidableEq, Repr

/-- Lifecycle states of `Convproc` (ST_IDLE, ST_STOP, ST_PROC, ST_WAIT). -/
inductive CState where
  | idle
  | stop
  | proc
  | wait
deriving DecidableEq, Repr

/-- Worker states of `Convlevel` (ST_IDLE, ST_PROC, ST_TERM). -/
inductive LState where
  | idle
  | proc
  | term
deriving DecidableEq, Repr

/-! ### Time-domain tail convolver (`TimeDomainConvolver`, src/unnamed/part_006) -/

/-- State of `TimeDomainConvolver`: the 64-entry `_ir` array and `_enabled`. -/
structure TDC where
  enabled : Bool
  ir : Nat → Sample

/-- `TimeDomainConvolver::reset`: zero `_ir`, set `_enabled = false`. -/
def TDC.reset (_t : TDC) : TDC :=
  { enabled := false, ir := fun _ => 0 }

/-- `TimeDomainConvolver::configure (r, gain, delay)`.  `rdata i` models
`r->read` delivering sample `i` of the readable, `rlen` models
`r->readable_length ()`.  Note the source computes
`to_read = min (64, delay)` — not `min (64, max_len)` — so `delay = 0`
always yields `to_read = 0` and an early return. -/
def TDC.configure (t : TDC) (rdata : Nat → Sample) (rlen : Nat)
    (gain : Sample) (delay : Nat) : TDC :=
  if 64 ≤ delay then t
  else
    let toRead0 := min 64 delay
    let toRead := if delay < rlen then min toRead0 (rlen - delay) else toRead0
    if toRead = 0 then t
    else
      let ir1 : Nat → Sample := fun i =>
        if delay ≤ i ∧ i < delay + toRead then rdata (i - delay) else t.ir i
      let ir2 : Nat → Sample :=
        if gain ≠ 1 then
          fun i => if delay ≤ i ∧ i < 64 then ir1 i * gain else ir1 i
        else ir1
      { t with ir := ir2 }

/-- Inner loop of `TimeDomainConvolver::run`: for a fixed `i`,
`out[i + j] += in[i] * _ir[j]` for `j = 0 .. cnt-1`. -/
def tdcInner (inI : Sample) (ir : Nat → Sample) (i : Nat) :
    Nat → (Nat → Sample) → (Nat → Sample)
  | 0, out => out
  | cnt + 1, out =>
      let j := cnt
      tdcInner inI ir i cnt
        (fun m => if m = i + j then out m + inI * ir j else out m)

/-- Outer loop of `TimeDomainConvolver::run` over `i = 0 .. cnt-1`
(with `n` total samples: the inner loop runs for `j < n - i`). -/
def tdcOuter (inp : Nat → Sample) (ir : Nat → Sample) (n : Nat) :
    Nat → (Nat → Sample) → (Nat → Sample)
  | 0, out => out
  | cnt + 1, out =>
      let i := n - (cnt + 1)
      tdcOuter inp ir n cnt (tdcInner (inp i) ir i (n - i) out)

/-- `TimeDomainConvolver::run (out, in, n)`: returns the new contents of
`out`.  When `_enabled` is false the function returns immediately. -/
def TDC.run (t : TDC) (out inp : Nat → Sample) (n : Nat) : Nat → Sample :=
  if t.enabled then tdcOuter inp t.ir n n out else out

/-- Arguments of one `TimeDomainConvolver::configure` call. -/
structure TDCCfg where
  rdata : Nat → Sample
  rlen : Nat
  gain : Sample
  delay : Nat

/-- A sequence of `configure` calls applied after a `reset`. -/
def TDC.applyCfgs (t : TDC) : List TDCCfg → TDC
  | [] => t
  | c :: cs => TDC.applyCfgs (t.configure c.rdata c.rlen c.gain c.delay) cs

/-! ### Partition level (`Convlevel`)

Buffers are total functions; the C arrays are their restrictions to the
relevant index ranges.  An input-FFT slot `ffta p k` is complex bin `k` of
ring slot `p`; an impulse slot `fftb j` is `none` while the corresponding
`_fftb[j]` pointer is null.  `Macnode::_link` is never set in this source
(the zita `impdata_link` API was removed in the customization), so the
model reads `_fftb` directly. -/

structure Inpnode where
  inp : Nat
  ffta : Nat → Nat → Cpx

structure Macnode where
  inpn : Nat
  fftb : Nat → Option (Nat → Cpx)

structure Outnode where
  out : Nat
  buff : Nat → Nat → Sample
  macs : List Macnode

structure Convlevel where
  stat : LState
  prio : Int
  offs : Nat
  npar : Nat
  parsize : Nat
  options : Nat
  inpsize : Nat
  outsize : Nat
  inpoffs : Nat
  outoffs : Nat
  ptind : Nat
  opind : Nat
  wait : Nat
  bits : Nat
  inpList : List Inpnode
  outList : List Outnode

/-- `Convlevel::Convlevel` followed by `Convlevel::configure`: store the plan
parameters; scratch buffers (`_time_data`, `_prep_data`, `_freq_data`) and
FFT plans are allocation details with no persistent observable content. -/
def Convlevel.mkConfigured (prio : Int) (offs npar parsize options : Nat) : Convlevel :=
  { stat := .idle, prio := prio, offs := offs, npar := npar, parsize := parsize
    options := options, inpsize := 0, outsize := 0, inpoffs := 0, outoffs := 0
    ptind := 0, opind := 0, wait := 0, bits := 0, inpList := [], outList := [] }

/-- `Convlevel::reset`: zero the input spectra and output buffers, set the
offsets according to whether the level is synchronous (`parsize = outsize`),
reset the ring indices and semaphore counters. -/
def Convlevel.reset (L : Convlevel) (inpsize outsize : Nat) : Convlevel :=
  { L with
    inpsize := inpsize
    outsize := outsize
    inpList := L.inpList.map (fun X => { X with ffta := fun _ _ => (0, 0) })
    outList := L.outList.map (fun Y => { Y with buff := fun _ _ => 0 })
    outoffs := if L.parsize = outsize then 0 else L.parsize / 2
    inpoffs := if L.parsize = outsize then 0 else inpsize - L.parsize / 2
    bits := L.parsize / outsize
    wait := 0
    ptind := 0
    opind := 0 }

/-- `Convlevel::stop`: if not idle, set `_stat = ST_TERM` (and post the
trigger, which only wakes the worker). -/
def Convlevel.stop (L : Convlevel) : Convlevel :=
  if L.stat ≠ .idle then { L with stat := .term } else L

/-- Look up the `Inpnode` a `Macnode` points at (`M->_inpn`); pointer
identity in C, channel-index lookup here. -/
def lookupFfta (inpl : List Inpnode) (inp : Nat) : Nat → Nat → Cpx :=
  match inpl.find? (fun X => X.inp == inp) with
  | some X => X.ffta
  | none => fun _ _ => (0, 0)

/-- The partition MAC loop of `Convlevel::process` for one `Macnode`:
`cnt` counts remaining iterations (`cnt = npar - j`), `j` is the impulse
partition index, `i` the input-spectrum ring slot, updated by
`if (i == 0) i = _npar; i--`.  When `fftb j` is null the partition is
skipped.  Accumulation runs over bins `k ≤ parsize`. -/
def macLoop (ffta : Nat → Nat → Cpx) (fftb : Nat → Option (Nat → Cpx))
    (npar parsize : Nat) : Nat → Nat → Nat → (Nat → Cpx) → (Nat → Cpx)
  | 0, _, _, freq => freq
  | cnt + 1, j, i, freq =>
      let freq' : Nat → Cpx :=
        match fftb j with
        | some fb => fun k =>
            if k ≤ parsize then cadd (freq k) (cmul (ffta i k) (fb k)) else freq k
        | none => freq
      macLoop ffta fftb npar parsize cnt (j + 1) (if i = 0 then npar - 1 else i - 1) freq'

/-- The `_freq_data` contents produced for one output node: cleared, then
every MAC node of the node's list accumulated, each starting its ring walk
at `i = _ptind`. -/
def outFreq (inpl : List Inpnode) (ptind npar parsize : Nat)
    (macs : List Macnode) : Nat → Cpx :=
  macs.foldl
    (fun freq M => macLoop (lookupFfta inpl M.inpn) M.fftb npar parsize npar 0 ptind freq)
    (fun _ => (0, 0))

/-- `Convlevel::process`, one cycle: forward-FFT the last `parsize` input
samples (two-piece read when the engine input ring wraps) into
`ffta[_ptind]`, MAC every partition, inverse-FFT, overlap-add into
`buff[(opind+1) % 3]` and copy the tail into `buff[(opind+2) % 3]`, then
advance `_ptind`.  `fftR2C`/`fftC2R` stand for the external fftw plans;
`inpbuff c` is the engine input buffer of channel `c`. -/
def Convlevel.process (fftR2C : (Nat → Sample) → (Nat → Cpx))
    (fftC2R : (Nat → Cpx) → (Nat → Sample))
    (inpbuff : Nat → Nat → Sample) (L : Convlevel) : Convlevel :=
  let i1 := L.inpoffs
  let raw := i1 + L.parsize
  let inpoffs' := if raw ≥ L.inpsize then raw - L.inpsize else raw
  let n2 := if raw ≥ L.inpsize then raw - L.inpsize else 0
  let n1 := L.parsize - n2
  let opi1 := (L.opind + 1) % 3
  let opi2 := (L.opind + 2) % 3
  let inpList' := L.inpList.map (fun X =>
    let td : Nat → Sample := fun i =>
      if i < n1 then inpbuff X.inp (i1 + i)
      else if i < n1 + n2 then inpbuff X.inp (i - n1)
      else 0
    { X with ffta := fun p => if p = L.ptind then fftR2C td else X.ffta p })
  let outList' := L.outList.map (fun Y =>
    let td2 := fftC2R (outFreq inpList' L.ptind L.npar L.parsize Y.macs)
    { Y with buff := fun b k =>
        if b = opi1 ∧ k < L.parsize then Y.buff b k + td2 k
        else if b = opi2 ∧ k < L.parsize then td2 (L.parsize + k)
        else Y.buff b k })
  { L with
    inpoffs := inpoffs'
    inpList := inpList'
    outList := outList'
    ptind := if L.ptind + 1 = L.npar then 0 else L.ptind + 1 }

/-- Accumulation step at the end of `Convlevel::readout`/`readtail`: add
`buff[opind][outoffs .. outoffs + cnt)` of every output node into the
engine output accumulator `outbuff`. -/
def addTails (outl : List Outnode) (opind outoffs cnt : Nat)
    (outbuff : Nat → Nat → Sample) : Nat → Nat → Sample :=
  outl.foldl
    (fun ob Y => fun c i =>
      if c = Y.out ∧ i < cnt then ob c i + Y.buff opind (outoffs + i) else ob c i)
    outbuff

/-- `Convlevel::readout`: advance `_outoffs`; on a cycle boundary either
hand the cycle to the worker (async: drain `_done`, advance `_opind`, post
`_trig`, leaving `_wait = 1`) or run `process` inline (sync); then mix
`buff[_opind]` into the engine accumulator.  The blocking `_done.wait` is
a synchronisation point with no state content beyond draining `_wait`;
the worker's own `process` execution is not part of this audio-thread
step.  Returns the new level, accumulator and the flag value
`(_wait > 1) ? _bits : 0`. -/
def Convlevel.readout (fftR2C : (Nat → Sample) → (Nat → Cpx))
    (fftC2R : (Nat → Cpx) → (Nat → Sample))
    (inpbuff : Nat → Nat → Sample) (L : Convlevel)
    (outbuff : Nat → Nat → Sample) :
    Convlevel × (Nat → Nat → Sample) × Nat :=
  let oo := L.outoffs + L.outsize
  let L1 :=
    if oo = L.parsize then
      if L.stat = .proc then
        { L with outoffs := 0, wait := 1
                 opind := if L.opind + 1 = 3 then 0 else L.opind + 1 }
      else
        let Lp := Convlevel.process fftR2C fftC2R inpbuff L
        { Lp with outoffs := 0
                  opind := if L.opind + 1 = 3 then 0 else L.opind + 1 }
    else
      { L with outoffs := oo }
  let ob := addTails L1.outList L1.opind L1.outoffs L1.outsize outbuff
  (L1, ob, if L1.wait > 1 then L1.bits else 0)

/-- `Convlevel::readtail (n)`: like `readout` but on a local copy of
`_opind`/`_outoffs` — nothing is triggered and no engine offset moves; at
a boundary the `_wait` drain still happens.  Mixes the first `n` samples
of `buff[opind]` into the accumulator and returns 0. -/
def Convlevel.readtail (L : Convlevel) (outbuff : Nat → Nat → Sample)
    (n : Nat) : Convlevel × (Nat → Nat → Sample) × Nat :=
  let oo := L.outoffs + L.outsize
  let wrap := oo = L.parsize
  let opind := if wrap then (if L.opind + 1 = 3 then 0 else L.opind + 1) else L.opind
  let outoffs := if wrap then 0 else oo
  let L1 := if wrap then { L with wait := 0 } else L
  let ob := addTails L.outList opind outoffs n outbuff
  (L1, ob, 0)

/-- Partition loop of `Convlevel::impdata_write`: `cnt = npar - k` counts the
remaining partitions, `i0`/`i1` the (signed) sample window of partition `k`
relative to the deposited slice.  Inside the window, `_prep_data` holds the
normalised samples at indices `j - i0`, zero elsewhere; its forward FFT is
complex-added into `fftb[k]`.  A null `_fftb[k]` is allocated (zeros) when
`create` holds and skipped otherwise. -/
def impLoop (fftR2C : (Nat → Sample) → (Nat → Cpx)) (parsize : Nat)
    (norm : Sample) (data : Int → Sample) (step n : Int) (create : Bool) :
    Nat → Nat → Int → (Nat → Option (Nat → Cpx)) → (Nat → Option (Nat → Cpx))
  | 0, _, _, fftb => fftb
  | cnt + 1, k, i0, fftb =>
      let i1 : Int := i0 + (parsize : Int)
      let fftb' : Nat → Option (Nat → Cpx) :=
        if i0 < n ∧ 0 < i1 then
          let slot :=
            match fftb k with
            | some fb => some fb
            | none => if create then some (fun _ => ((0 : ℚ), (0 : ℚ))) else none
          match slot with
          | some fb =>
              let j0 : Int := max i0 0
              let j1 : Int := min i1 n
              let prep : Nat → Sample := fun m =>
                let j : Int := (m : Int) + i0
                if j0 ≤ j ∧ j < j1 then norm * data (j * step) else 0
              let freq := fftR2C prep
              fun k2 => if k2 = k then
                  some (fun b => if b ≤ parsize then cadd (fb b) (freq b) else fb b)
                else fftb k2
          | none => fftb
        else fftb
      impLoop fftR2C parsize norm data step n create cnt (k + 1) i1 fftb'

/-- `Convlevel::impdata_write (inp, out, step, data, ind0, ind1, create)`:
clip the deposited slice against the level's window, find or create the
input/output/MAC nodes (`findmacnode`), then run the partition loop on the
MAC node's impulse spectra.  `M->_link` is never set in this source.  In
the model an unallocated `_fftb` is identified with an all-null one (both
are observationally "no partition data" for the `create = true` calls this
repository makes). -/
def Convlevel.impdata_write (fftR2C : (Nat → Sample) → (Nat → Cpx))
    (L : Convlevel) (inp out : Nat) (step : Int) (data : Int → Sample)
    (ind0 ind1 : Int) (create : Bool) : Convlevel :=
  let n : Int := ind1 - ind0
  let i0 : Int := (L.offs : Int) - ind0
  let i1 : Int := i0 + ((L.npar * L.parsize : Nat) : Int)
  if i0 ≥ n ∨ i1 ≤ 0 then L
  else
    let haveX := L.inpList.any (fun X => X.inp == inp)
    let haveY := L.outList.any (fun Y => Y.out == out)
    let haveM :=
      match L.outList.find? (fun Y => Y.out == out) with
      | some Y => Y.macs.any (fun M => M.inpn == inp)
      | none => false
    if !create && !(haveX && haveY && haveM) then L
    else
      let inpList' :=
        if haveX then L.inpList
        else { inp := inp, ffta := fun _ _ => (0, 0) } :: L.inpList
      let norm : Sample := (1 / 2 : ℚ) / (L.parsize : ℚ)
      let updMac : Macnode → Macnode := fun M =>
        { M with fftb := impLoop fftR2C L.parsize norm data step n create L.npar 0 i0 M.fftb }
      let updY : Outnode → Outnode := fun Y =>
        if Y.macs.any (fun M => M.inpn == inp) then
          { Y with macs := Y.macs.map (fun M => if M.inpn == inp then updMac M else M) }
        else
          { Y with macs := updMac { inpn := inp, fftb := fun _ => none } :: Y.macs }
      let outList' :=
        if haveY then L.outList.map (fun Y => if Y.out == out then updY Y else Y)
        else updY { out := out, buff := fun _ _ => 0, macs := [] } :: L.outList
      { L with inpList := inpList', outList := outList' }

/-- `Convlevel::impdata_clear (inp, out)`: zero every allocated partition of
the (inp, out) MAC node; a missing node is a no-op. -/
def Convlevel.impdata_clear (L : Convlevel) (inp out : Nat) : Convlevel :=
  if ¬ L.inpList.any (fun X => X.inp == inp) then L
  else
    { L with outList := L.outList.map (fun Y =>
        if Y.out == out then
          { Y with macs := Y.macs.map (fun M =>
              if M.inpn == inp then
                { M with fftb := fun j => (M.fftb j).map (fun _ _ => ((0 : ℚ), (0 : ℚ))) }
              else M) }
        else Y) }

/-! ### Partitioned convolver (`Convproc`) -/

structure Convproc where
  state : CState
  options : Nat
  ninp : Nat
  nout : Nat
  quantum : Nat
  minpart : Nat
  maxpart : Nat
  nlevels : Nat
  latecnt : Nat
  inpsize : Nat
  inpoffs : Nat
  outoffs : Nat
  levels : List Convlevel
  inpbuff : Nat → Nat → Sample
  outbuff : Nat → Nat → Sample

/-- `Convproc::Convproc`: everything zero, state `ST_IDLE`. -/
def Convproc.init : Convproc :=
  { state := .idle, options := 0, ninp := 0, nout := 0, quantum := 0
    minpart := 0, maxpart := 0, nlevels := 0, latecnt := 0, inpsize := 0
    inpoffs := 0, outoffs := 0, levels := []
    inpbuff := fun _ _ => 0, outbuff := fun _ _ => 0 }

/-- `Convproc::set_options`. -/
def Convproc.set_options (S : Convproc) (options : Nat) : Convproc :=
  { S with options := options }

/-- The parameter validation of `Convproc::configure`, verbatim from the
source (the compound `if` returning `BAD_PARAM`). -/
def configParamsBad (ninp nout quantum minpart maxpart : Nat) : Bool :=
  ninp < 1 || ninp > MAXINP || nout < 1 || nout > MAXOUT ||
  (quantum &&& (quantum - 1)) != 0 || quantum < MINQUANT || quantum > MAXQUANT ||
  (minpart &&& (minpart - 1)) != 0 || minpart < MINPART || minpart < quantum ||
  minpart > MAXDIVIS * quantum ||
  (maxpart &&& (maxpart - 1)) != 0 || maxpart > MAXPART || maxpart < minpart

/-- The pre-plan loop of `configure`: `while (size < minpart) { prio -= 1;
size <<= 1; }`.  The fuel argument bounds the doublings; `minpart` doublings
always suffice for validated parameters (`quantum ≥ MINQUANT ≥ 1`). -/
def sizeUp (minpart : Nat) : Nat → Nat → Int → Nat × Int
  | 0, size, prio => (size, prio)
  | fuel + 1, size, prio =>
      if size < minpart then sizeUp minpart fuel (size * 2) (prio - 1)
      else (size, prio)

/-- Partition count chosen for one level of the plan: `npar = ⌈(maxsize −
offs)/size⌉`, trimmed toward `nmin` when the saved MACs dominate the extra
FFT cost (the `cfft < d * cmac` break-even of the source). -/
def planNpar (cfft cmac : ℚ) (maxsize maxpart offs size s nmin : Nat) : Nat :=
  let npar0 := (maxsize - offs + size - 1) / size
  if size < maxpart ∧ nmin < npar0 then
    let r : Nat := 2 ^ s
    let d : Nat := npar0 - nmin
    let d2 : Nat := d - (d + r - 1) / r
    if cfft < (d2 : ℚ) * cmac then nmin else npar0
  else npar0

/-- The partition-plan loop of `Convproc::configure` (the `for (offs = pind
= 0; offs < maxsize; pind++)` loop).  Returns the created levels and the
final value of `size` (stored into `_maxpart` / doubled into `_inpsize`).
The fuel argument bounds the iterations; `maxsize + 1` always suffices for
validated parameters because `offs` grows by `size * npar ≥ 1` each turn. -/
def planLoop (cfft cmac : ℚ) (options step maxsize maxpart : Nat) :
    Nat → Nat → Nat → Int → Nat → Nat → List Convlevel × Nat
  | 0, _, size, _, _, _ => ([], size)
  | fuel + 1, offs, size, prio, s, nmin =>
      if offs < maxsize then
        let npar := planNpar cfft cmac maxsize maxpart offs size s nmin
        let lvl := Convlevel.mkConfigured prio offs npar size options
        let offs' := offs + size * npar
        if offs' < maxsize then
          let rest :=
            planLoop cfft cmac options step maxsize maxpart fuel offs'
              (size <<< s) (prio - (s : Int)) step (if step = 1 then 2 else 6)
          (lvl :: rest.1, rest.2)
        else ([lvl], size)
      else ([], size)

/-- The whole plan computation of `configure`: density clamping, the cost
model (`_fft_cost = 5`, `_mac_cost = 1`), the `step`/`s`/`nmin` seeds, the
pre-plan doubling of `size` up to `minpart`, then the plan loop. -/
def configurePlan (options ninp nout maxsize quantum minpart maxpart : Nat)
    (density : ℚ) : List Convlevel × Nat :=
  let nmin0 := min ninp nout
  let dens1 := if density ≤ 0 then 1 / (nmin0 : ℚ) else density
  let dens2 := if dens1 > 1 then 1 else dens1
  let cfft : ℚ := 5 * ((ninp : ℚ) + (nout : ℚ))
  let cmac : ℚ := 1 * (ninp : ℚ) * (nout : ℚ) * dens2
  let step : Nat := if cfft < 4 * cmac then 1 else 2
  let s0 : Nat :=
    if step = 2 then (if (maxpart / minpart) &&& 0xAAAA ≠ 0 then 1 else 2)
    else 1
  let nmin1 : Nat := (if s0 = 1 then 2 else 6) + (if minpart = quantum then 1 else 0)
  let size0 := (sizeUp minpart minpart quantum 0).1
  let prio0 := (sizeUp minpart minpart quantum 0).2
  planLoop cfft cmac options step maxsize maxpart (maxsize + 1) 0 size0 prio0 s0 nmin1

/-- `Convproc::configure`: `BAD_STATE` unless idle, `BAD_PARAM` on the
validation compound, otherwise build the plan, allocate the engine buffers
and move to `ST_STOP`.  Allocation failure (`MEM_ALLOC`) is not modelled;
freshly allocated buffers are modelled as zero-filled. -/
def Convproc.configure (S : Convproc)
    (ninp nout maxsize quantum minpart maxpart : Nat) (density : ℚ) :
    Convproc × CRes :=
  if S.state ≠ .idle then (S, .bad_state)
  else if configParamsBad ninp nout quantum minpart maxpart then (S, .bad_param)
  else
    let plan := (configurePlan S.options ninp nout maxsize quantum minpart maxpart density).1
    let fsize := (configurePlan S.options ninp nout maxsize quantum minpart maxpart density).2
    ({ S with
       state := .stop
       ninp := ninp, nout := nout
       quantum := quantum, minpart := minpart, maxpart := fsize
       nlevels := plan.length, latecnt := 0
       inpsize := 2 * fsize
       levels := plan
       inpbuff := fun _ _ => 0, outbuff := fun _ _ => 0 }, .ok)

/-- `Convproc::impdata_create`: `BAD_STATE` unless stopped, `BAD_PARAM` on
out-of-range channels, otherwise deposit the slice into every level. -/
def Convproc.impdata_create (fftR2C : (Nat → Sample) → (Nat → Cpx))
    (S : Convproc) (inp out : Nat) (step : Int) (data : Int → Sample)
    (ind0 ind1 : Int) : Convproc × CRes :=
  if S.state ≠ .stop then (S, .bad_state)
  else if S.ninp ≤ inp ∨ S.nout ≤ out then (S, .bad_param)
  else
    let levels' := S.levels.map
      (fun L => L.impdata_write fftR2C inp out step data ind0 ind1 true)
    ({ S with levels := levels' }, .ok)

/-- `Convproc::reset`: `BAD_STATE` when idle, otherwise zero the engine
buffers and reset every level with `(_inpsize, _minpart)`. -/
def Convproc.reset (S : Convproc) : Convproc × CRes :=
  if S.state = .idle then (S, .bad_state)
  else
    ({ S with
       inpbuff := fun c i => if c < S.ninp ∧ i < S.inpsize then 0 else S.inpbuff c i
       outbuff := fun c i => if c < S.nout ∧ i < S.minpart then 0 else S.outbuff c i
       levels := S.levels.map (fun L => L.reset S.inpsize S.minpart) }, .ok)

/-- `Convproc::stop_process`: unless running (or forced), `BAD_STATE`;
otherwise signal `TERM` on every level and move to `ST_WAIT`. -/
def Convproc.stop_process (S : Convproc) (force : Bool) : Convproc × CRes :=
  if S.state ≠ .proc ∧ ¬ force then (S, .bad_state)
  else ({ S with levels := S.levels.map Convlevel.stop, state := .wait }, .ok)

/-- The readout fold inside `Convproc::process`: visit the levels in order,
threading the output accumulator and OR-ing the returned flags. -/
def readoutFold (fftR2C : (Nat → Sample) → (Nat → Cpx))
    (fftC2R : (Nat → Cpx) → (Nat → Sample))
    (inpbuff : Nat → Nat → Sample) :
    List Convlevel → (Nat → Nat → Sample) → Nat →
    List Convlevel × (Nat → Nat → Sample) × Nat
  | [], ob, f => ([], ob, f)
  | L :: ls, ob, f =>
      let (L', ob', fk) := L.readout fftR2C fftC2R inpbuff ob
      let (ls', ob'', f') := readoutFold fftR2C fftC2R inpbuff ls ob' (f.lor fk)
      (L' :: ls', ob'', f')

/-- `Convproc::process`: advance the engine offsets; on an output boundary
(`_outoffs` wrapping at `_minpart`) zero the accumulators, read out every
level, and run the late-cycle bookkeeping (`_latecnt`, `OPT_LATE_CONTIN`,
`FL_LOAD`).  Returns the new state and the flag value `f`. -/
def Convproc.process (fftR2C : (Nat → Sample) → (Nat → Cpx))
    (fftC2R : (Nat → Cpx) → (Nat → Sample)) (S : Convproc) : Convproc × Nat :=
  if S.state ≠ .proc then (S, 0)
  else
    let io1 := S.inpoffs + S.quantum
    let inpoffs' := if io1 = S.inpsize then 0 else io1
    let oo1 := S.outoffs + S.quantum
    if oo1 = S.minpart then
      let ob0 : Nat → Nat → Sample := fun c i =>
        if c < S.nout ∧ i < S.minpart then 0 else S.outbuff c i
      let (levels', ob', f0) := readoutFold fftR2C fftC2R S.inpbuff S.levels ob0 0
      let S1 := { S with inpoffs := inpoffs', outoffs := 0
                         levels := levels', outbuff := ob' }
      if f0 ≠ 0 then
        let latecnt' := S.latecnt + 1
        if 5 ≤ latecnt' then
          let S2 := { S1 with latecnt := latecnt' }
          let S3 :=
            if S.options &&& OPT_LATE_CONTIN = 0 then (S2.stop_process false).1
            else S2
          (S3, f0 ||| FL_LOAD)
        else ({ S1 with latecnt := latecnt' }, f0)
      else ({ S1 with latecnt := 0 }, f0)
    else
      ({ S with inpoffs := inpoffs', outoffs := oo1 }, 0)

/-- The readtail fold inside `Convproc::tailonly`. -/
def readtailFold (n : Nat) :
    List Convlevel → (Nat → Nat → Sample) → Nat →
    List Convlevel × (Nat → Nat → Sample) × Nat
  | [], ob, f => ([], ob, f)
  | L :: ls, ob, f =>
      let (L', ob', fk) := L.readtail ob n
      let (ls', ob'', f') := readtailFold n ls ob' (f.lor fk)
      (L' :: ls', ob'', f')

/-- `Convproc::tailonly (n_samples)`: on a *local* copy of `_outoffs`, test
whether the coming quantum completes a cycle; if so zero the first
`n_samples` of every accumulator and mix every level's pre-computed tail
via `readtail`.  The engine offsets themselves do not move. -/
def Convproc.tailonly (S : Convproc) (n : Nat) : Convproc × Nat :=
  if S.state ≠ .proc then (S, 0)
  else
    let oo := S.outoffs + S.quantum
    if oo = S.minpart then
      let ob0 : Nat → Nat → Sample := fun c i =>
        if c < S.nout ∧ i < n then 0 else S.outbuff c i
      let (levels', ob', f0) := readtailFold n S.levels ob0 0
      ({ S with levels := levels', outbuff := ob' }, f0)
    else (S, 0)

/-! ### IR loading front end (`Convolver`, src/unnamed/part_006)

The directory of audio files behind `MemSource` / `FileSource` is modelled
as an environment mapping a path to `(readable_length, n_channels)`
metadata, `none` when the file cannot be opened (the decoder throws).
Construction failure (any `throw std::runtime_error`) is `none`. -/

structure IREnv where
  lookup : String → Option (Nat × Nat)

/-- Gain concerns of an engine instance.  `set_output_gain` stores
coefficients derived with `powf`; the claims never touch the numeric
values, so the record keeps the dB pair handed in by the facade. -/
structure EngineGain where
  dbDry : ℚ
  dbWet : ℚ
deriving DecidableEq, Repr

/-- An engine instance as the facade observes it: the `Convolver` members
read by `lv2.cc`.  `nominal` is `_n_samples` (= `latency ()`);
`artificial` is `_ir_settings.artificial_latency`.  Modelled from the
spec: the current `convolver.h` (declaring `artificial_latency ()` and the
`IRSettings.artificial_latency` field used by `lv2.cc`) is not among the
provided sources; per the spec's IRSettings, artificial latency is an
integer defaulting to 0 for engines built from a plain load request. -/
structure Engine where
  path : String
  irLen : Nat
  irChans : Nat
  nominal : Nat
  artificial : Int
  configured : Bool
  gain : EngineGain
deriving DecidableEq, Repr

/-- `Convolver::Convolver` (src/unnamed/part_006): open the source (`mem:`
or file — both live in the environment), reject an IR longer than `2^24`
samples, build one `ChanWrap` readable per channel, reject when no usable
channel exists.  `none` models a thrown `std::runtime_error`. -/
def convolverCtor (env : IREnv) (path : String) : Option Engine :=
  match env.lookup path with
  | none => none
  | some (len, chans) =>
      if len > 0x1000000 then none
      else if chans = 0 then none
      else some { path := path, irLen := len, irChans := chans
                  nominal := 0, artificial := 0, configured := false
                  gain := { dbDry := 0, dbWet := 0 } }

/-- `Convolver::reconfigure (block_size, threaded = true)`: in the threaded
configuration used by the plugin, `_n_samples = 64` and the convolution
core is configured with quantum = minpart = 64, maxpart = MAXPART: valid
parameters, so `_configured` becomes true.  (The `Convproc` side of
`reconfigure` is exercised separately through `Convproc.configure`.) -/
def engineReconfigure (blockSize : Nat) (threaded : Bool) (e : Engine) : Engine :=
  let ns := if threaded then 64 else 2 ^ (max 1 (Nat.clog 2 blockSize))
  { e with nominal := ns, configured := true }

/-- `Convolver::ready ()`: `_configured && state () == ST_PROC`; the core's
state is `PROC` exactly when the threaded configuration succeeded. -/
def Engine.ready (e : Engine) : Bool :=
  e.configured

/-! ### Engine facade and hot-swap (`lv2.cc`) -/

/-- Worker commands (`CMD_APPLY = 0`, `CMD_FREE = 1`). -/
inductive Cmd where
  | apply
  | free
deriving DecidableEq, Repr

/-- The `zeroConvolv` instance fields involved in the claims.  The
one-slot queue `next_queued_file` uses `""` for "empty" exactly like the
`std::string` in the source. -/
structure Facade where
  online : Option Engine
  offline : Option Engine
  queued : String
  psetDirty : Bool
  buffered : Bool
  dbDry : ℚ
  dbWet : ℚ
  blockSize : Nat

/-- `work_response`: when no offline engine exists (IR construction
failed), only re-kick the queue with a `FREE`; otherwise swap the
`online`/`offline` pointers, push the current gain targets into the new
engine, and schedule a `FREE` for the displaced one.  Returns the new
state and the scheduled worker commands.  (`inform_ui` writes to the
notify port only.) -/
def workResponse (s : Facade) : Facade × List Cmd :=
  match s.offline with
  | none => (s, if s.queued ≠ "" then [Cmd.free] else [])
  | some off =>
      let newOnline := { off with gain := { dbDry := s.dbDry, dbWet := s.dbWet } }
      ({ s with online := some newOnline, offline := s.online, psetDirty := true },
       [Cmd.free])

/-- `load_ir_worker`: under the state lock, queue the path when an offline
engine already exists; otherwise construct a new convolver (ctor +
`reconfigure (block_size)`), dropping it again if not `ready`.  The third
component logs the paths for which a construction was started. -/
def loadIrWorker (env : IREnv) (s : Facade) (path : String) :
    Facade × Bool × List String :=
  if s.offline.isSome then ({ s with queued := path }, false, [])
  else
    match convolverCtor env path with
    | some e0 =>
        let e := engineReconfigure s.blockSize true e0
        if e.ready then ({ s with offline := some e }, true, [path])
        else ({ s with offline := none }, false, [path])
    | none => ({ s with offline := none }, false, [path])

/-- The `CMD_FREE` branch of `work`: delete the offline engine, take the
queued path, and when one exists immediately load it. -/
def workFree (env : IREnv) (s : Facade) : Facade × Bool × List String :=
  let s1 := { s with offline := none }
  let q := s1.queued
  let s2 := { s1 with queued := "" }
  if q ≠ "" then loadIrWorker env s2 q else (s2, true, [])

/-- Events reaching the facade: a load request forwarded from the control
port (or state restore), the `CMD_FREE` worker command, and the host
delivering the build response to `work_response` on the audio thread. -/
inductive Ev where
  | load (path : String)
  | freeCmd
  | applyResp
deriving DecidableEq, Repr

/-- One event step; returns the facade and the construction log. -/
def stepEv (env : IREnv) (s : Facade) : Ev → Facade × List String
  | .load p => let (s', _, b) := loadIrWorker env s p; (s', b)
  | .freeCmd => let (s', _, b) := workFree env s; (s', b)
  | .applyResp => ((workResponse s).1, [])

/-- Process a list of events, accumulating the construction log. -/
def runEvents (env : IREnv) (s : Facade) : List Ev → Facade × List String
  | [] => (s, [])
  | e :: es =>
      let (s1, b1) := stepEv env s e
      let (s2, b2) := runEvents env s1 es
      (s2, b1 ++ b2)

/-- The latency-port value written by `run` (lv2.cc:402-418): zero without
an online engine, otherwise `artificial_latency () + (buffered ? latency ()
: 0)`. -/
def runLatencyPort (s : Facade) : Int :=
  match s.online with
  | none => 0
  | some e => e.artificial + (if s.buffered then (e.nominal : Int) else 0)

/-- The latency-port value left behind by `run_cfg` (lv2.cc:949-1057):
with an online engine the function first calls `run` — which writes
`runLatencyPort` — and then overwrites the port with
`artificial_latency ()` alone; without one the pass-through path writes 0.
`buffered` has already been refreshed from the control port. -/
def runCfgLatencyPort (s : Facade) : Int :=
  match s.online with
  | none => 0
  | some e => e.artificial

/-- The `buffered` refresh at the top of `run_cfg`:
`self->buffered = *self->p_ctrl[0] > 0`. -/
def runCfgSetBuffered (s : Facade) (ctrl0 : ℚ) : Facade :=
  { s with buffered := ctrl0 > 0 }

/-! ### Statement vocabulary -/

/-- Spec-side reading of invariant I1 as the claims state it:
`quantum ≤ minpart ≤ maxpart ≤ MAXPART`, each a power of two.  (To be
compared against the source's `configParamsBad`.) -/
def specInvariantI1 (quantum minpart maxpart : Nat) : Prop :=
  quantum ≤ minpart ∧ minpart ≤ maxpart ∧ maxpart ≤ MAXPART ∧
  (∃ a, quantum = 2 ^ a) ∧ (∃ b, minpart = 2 ^ b) ∧ (∃ c, maxpart = 2 ^ c)

/-- Offsets of a partition plan are cumulative: each level starts where the
previous one ended. -/
def planChained : Nat → List Convlevel → Prop
  | _, [] => True
  | o, L :: ls => L.offs = o ∧ planChained (o + L.parsize * L.npar) ls

/-- End offset of a partition plan. -/
def planEnd : Nat → List Convlevel → Nat
  | o, [] => o
  | o, L :: ls => planEnd (o + L.parsize * L.npar) ls

/-- The output-ring slot `readtail` reads from (the local, wrap-adjusted
copy of `_opind`). -/
def tailOp (L : Convlevel) : Nat :=
  if L.outoffs + L.outsize = L.parsize then
    (if L.opind + 1 = 3 then 0 else L.opind + 1)
  else L.opind

/-- The buffer offset `readtail` reads from (the local, wrap-adjusted copy
of `_outoffs`). -/
def tailOff (L : Convlevel) : Nat :=
  if L.outoffs + L.outsize = L.parsize then 0 else L.outoffs + L.outsize

/-- The tail contribution a single level adds to output channel `c` at
sample `i` during `readtail n` (summed over the level's output nodes). -/
def tailContrib (L : Convlevel) (n c i : Nat) : Sample :=
  (L.outList.map (fun Y =>
    if c = Y.out ∧ i < n then Y.buff (tailOp L) (tailOff L + i) else 0)).sum

/-- Ring slot visited at step `j` of the MAC loop: starts at `_ptind`,
then `if (i == 0) i = _npar; i--`. -/
def macIdx (ptind npar : Nat) : Nat → Nat
  | 0 => ptind
  | j + 1 =>
      let i := macIdx ptind npar j
      if i = 0 then npar - 1 else i - 1

/-- The value the claim predicts for one MAC node and bin `k`: partition
`j` paired with the input spectrum at ring slot `(ptind − j) mod npar`. -/
def macSpecTerm (inpl : List Inpnode) (M : Macnode) (ptind npar k : Nat) (j : Nat) : Cpx :=
  match M.fftb j with
  | some fb => cmul (lookupFfta inpl M.inpn ((((ptind : Int) - j) % npar).toNat) k) (fb k)
  | none => (0, 0)

/-! ### Concrete fixtures for witnesses and counterexamples -/

/-- An engine value used by facade witnesses. -/
def engFix : Engine :=
  { path := "ir.wav", irLen := 100, irChans := 1, nominal := 64
    artificial := 10, configured := true, gain := { dbDry := 0, dbWet := 0 } }

/-- Environment in which every IR fails to open. -/
def envFail : IREnv :=
  { lookup := fun _ => none }

/-- Environment in which every IR opens as 100 mono samples. -/
def envOk : IREnv :=
  { lookup := fun _ => some (100, 1) }

/-- Environment for the constructor boundary cases. -/
def envC10 : IREnv :=
  { lookup := fun p =>
      if p = "big" then some (0x1000001, 1)
      else if p = "exact" then some (0x1000000, 1)
      else if p = "nochan" then some (5, 0)
      else none }

/-- Facade with an online engine, no offline engine and a queued path. -/
def facC1 : Facade :=
  { online := some engFix, offline := none, queued := "queued.wav"
    psetDirty := true, buffered := true, dbDry := 0, dbWet := 0, blockSize := 64 }

/-- Facade with an online engine and an idle worker slot. -/
def facC2 : Facade :=
  { online := some engFix, offline := none, queued := ""
    psetDirty := true, buffered := true, dbDry := 0, dbWet := 0, blockSize := 64 }

/-- Facade for the latency-port counterexample: buffered mode, engine with
`latency () = 64` and `artificial_latency () = 10`. -/
def facC3 : Facade :=
  { online := some engFix, offline := none, queued := ""
    psetDirty := true, buffered := true, dbDry := 0, dbWet := 0, blockSize := 64 }

/-- A single (smallest-partition) level whose pre-computed tail buffer
holds the value 7: `parsize = outsize = minpart = 64`, ring slot 1 is the
tail the next wrap reads. -/
def lvlC4 : Convlevel :=
  { stat := .proc, prio := 0, offs := 0, npar := 2, parsize := 64
    options := 0, inpsize := 256, outsize := 64, inpoffs := 0, outoffs := 0
    ptind := 0, opind := 0, wait := 0, bits := 1
    inpList := []
    outList := [{ out := 0, buff := fun b _ => if b = 1 then 7 else 0, macs := [] }] }

/-- Engine state at a `tailonly` boundary whose only level is the
smallest-partition one. -/
def procC4 : Convproc :=
  { state := .proc, options := 0, ninp := 1, nout := 1, quantum := 64
    minpart := 64, maxpart := 64, nlevels := 1, latecnt := 0, inpsize := 256
    inpoffs := 0, outoffs := 0, levels := [lvlC4]
    inpbuff := fun _ _ => 0, outbuff := fun _ _ => 0 }

/-- A level at a cycle boundary with its worker still outstanding
(`_wait = 1`, i.e. the trigger of the previous cycle was posted and `done`
has not been consumed): the late situation of claim C7. -/
def lvlC7 : Convlevel :=
  { stat := .proc, prio := 0, offs := 0, npar := 2, parsize := 64
    options := 0, inpsize := 256, outsize := 64, inpoffs := 0, outoffs := 0
    ptind := 0, opind := 0, wait := 1, bits := 1
    inpList := []
    outList := [{ out := 0, buff := fun _ _ => 0, macs := [] }] }

/-- Engine at an output boundary (`outoffs + quantum = minpart`) in `PROC`
with four prior consecutive late cycles on the books and a late level. -/
def procC7 : Convproc :=
  { state := .proc, options := 0, ninp := 1, nout := 1, quantum := 64
    minpart := 64, maxpart := 64, nlevels := 1, latecnt := 4, inpsize := 256
    inpoffs := 0, outoffs := 0, levels := [lvlC7]
    inpbuff := fun _ _ => 0, outbuff := fun _ _ => 0 }

/-- Input node for the MAC-ordering witness: ring slot `p` holds the
constant spectrum `(p, 0)` so the slot an accumulation read from is
visible in the result. -/
def inpC8 : Inpnode :=
  { inp := 0, ffta := fun p _ => ((p : ℚ), 0) }

/-- MAC node for the MAC-ordering witness: every partition present, with
spectrum 1. -/
def macC8 : Macnode :=
  { inpn := 0, fftb := fun _ => some (fun _ => (1, 0)) }

/-- A level for the ring-index witness: `ptind = 1`, `npar = 2`. -/
def lvlC9 : Convlevel :=
  { stat := .proc, prio := 0, offs := 0, npar := 2, parsize := 64
    options := 0, inpsize := 256, outsize := 64, inpoffs := 0, outoffs := 32
    ptind := 1, opind := 0, wait := 0, bits := 1
    inpList := [], outList := [] }

/-! ### Helper lemmas -/

theorem tdc_configure_enabled (t : TDC) (r : Nat → Sample) (l : Nat)
    (g : Sample) (d : Nat) : (t.configure r l g d).enabled = t.enabled := by
  simp only [TDC.configure]
  split_ifs <;> rfl

theorem tdc_applyCfgs_enabled (t : TDC) (cfgs : List TDCCfg) :
    (t.applyCfgs cfgs).enabled = t.enabled := by
  induction cfgs generalizing t with
  | nil => rfl
  | cons c cs ih =>
      simpa [TDC.applyCfgs, tdc_configure_enabled] using
        ih (t.configure c.rdata c.rlen c.gain c.delay)

/-! ### Claim C5 -/

/-- C5: `TimeDomainConvolver` is permanently disabled in this source:
`reset ()` clears `_enabled`, `configure ()` never sets it (and a zero
`delay` makes `to_read = min (64, delay) = 0`, returning early without any
change), so after a `reset` followed by any sequence of `configure` calls,
`run (out, in, n)` leaves `out` entirely unchanged. -/
theorem c5_tdc_permanently_disabled (t : TDC) (cfgs : List TDCCfg)
    (out inp : Nat → Sample) (n : Nat) (r : Nat → Sample) (l : Nat) (g : Sample) :
    (TDC.applyCfgs (TDC.reset t) cfgs).enabled = false ∧
    TDC.run (TDC.applyCfgs (TDC.reset t) cfgs) out inp n = out ∧
    TDC.configure t r l g 0 = t := by
  have he : (TDC.applyCfgs (TDC.reset t) cfgs).enabled = false := by
    rw [tdc_applyCfgs_enabled]; rfl
  refine ⟨he, ?_, ?_⟩
  · simp [TDC.run, he]
  · unfold TDC.configure
    norm_num

/-! ### Claim C1 -/

/-- C1: when IR construction fails the facade performs no pointer swap:
`load_ir_worker` leaves `clv_online` untouched and `clv_offline` null, and
a `work_response` arriving with `clv_offline = NULL` changes nothing (in
particular `run` still uses the same engine) and schedules a `FREE`
command exactly when a queued path is waiting to be drained. -/
theorem c1_no_swap_on_failed_build (env : IREnv) (s : Facade) (p : String)
    (hoff : s.offline = none) (hbuild : convolverCtor env p = none) :
    (loadIrWorker env s p).1.online = s.online ∧
    (loadIrWorker env s p).1.offline = none ∧
    workResponse s = (s, if s.queued ≠ "" then [Cmd.free] else []) ∧
    (s.queued ≠ "" → (workResponse s).2 = [Cmd.free]) ∧
    runLatencyPort (workResponse s).1 = runLatencyPort s := by
  have hL : loadIrWorker env s p = ({ s with offline := none }, false, [p]) := by
    unfold loadIrWorker
    rw [hoff, hbuild]
    simp
  have hW : workResponse s = (s, if s.queued ≠ "" then [Cmd.free] else []) := by
    unfold workResponse
    rw [hoff]
  refine ⟨by rw [hL], by rw [hL], hW, ?_, by rw [hW]⟩
  intro hq
  rw [hW]
  simp [hq]

/-- Witness for C1 at a concrete facade: failed load in `envFail`, and a
`work_response` with a queued path schedules the drain `FREE`. -/
theorem c1_witness :
    facC1.offline = none ∧ convolverCtor envFail "x" = none ∧
    (loadIrWorker envFail facC1 "x").1.online = some engFix ∧
    (workResponse facC1).2 = [Cmd.free] := by
  have h := c1_no_swap_on_failed_build envFail facC1 "x" rfl rfl
  exact ⟨rfl, rfl, h.1, h.2.2.2.1 (by decide)⟩

/-! ### Claim C3 -/

/-- C3 counterexample: the claim predicts that in buffered mode every
variant reports `nominal_block + artificial_latency`; with `facC3`
(buffered, online engine with `latency () = 64`, `artificial_latency () =
10`) the configurable variants' `run_cfg` (lv2.cc:995) overwrites the port
written by `run` and leaves `10`, not `64 + 10`. -/
theorem c3_counterexample :
    facC3.buffered = true ∧
    runLatencyPort facC3 = 74 ∧
    runCfgLatencyPort facC3 = 10 ∧
    (10 : Int) ≠ 64 + 10 := by
  refine ⟨rfl, rfl, rfl, by decide⟩

/-- C3 as amended: with an online engine, `run` writes
`artificial_latency () + (buffered ? latency () : 0)` to the latency port,
but in the Cfg variants `run_cfg` then overwrites the port with
`artificial_latency ()` alone, buffered or not. -/
theorem c3_latency_ports (s : Facade) (e : Engine) (h : s.online = some e) :
    runLatencyPort s = e.artificial + (if s.buffered then (e.nominal : Int) else 0) ∧
    runCfgLatencyPort s = e.artificial := by
  unfold runLatencyPort runCfgLatencyPort
  rw [h]
  exact ⟨rfl, rfl⟩

/-- Witness for C3 (amended) at the concrete facade. -/
theorem c3_witness :
    facC3.online = some engFix ∧
    runLatencyPort facC3 = engFix.artificial + (if facC3.buffered then (engFix.nominal : Int) else 0) ∧
    runCfgLatencyPort facC3 = engFix.artificial := by
  have h := c3_latency_ports facC3 engFix rfl
  exact ⟨rfl, h.1, h.2⟩

/-! ### Claim C10 -/

/-- C10: the `Convolver` constructor rejects an IR whose readable length
exceeds `2^24` samples, accepts length exactly `2^24`, fails when no
usable audio channel exists, and a failed construction leaves no
partially-constructed engine attached to the facade (`clv_offline` stays
null, `clv_online` untouched). -/
theorem c10_ir_length_limit (env : IREnv) (p : String) (len chans : Nat)
    (s : Facade) (hmeta : env.lookup p = some (len, chans))
    (hoff : s.offline = none) :
    (2 ^ 24 < len → convolverCtor env p = none) ∧
    (len = 2 ^ 24 → 1 ≤ chans →
      ∃ e, convolverCtor env p = some e ∧ e.irLen = len ∧ e.irChans = chans) ∧
    (chans = 0 → convolverCtor env p = none) ∧
    (convolverCtor env p = none →
      (loadIrWorker env s p).1.offline = none ∧
      (loadIrWorker env s p).1.online = s.online) := by
  refine ⟨?_, ?_, ?_, ?_⟩
  · intro hlen
    unfold convolverCtor
    rw [hmeta]
    have : len > 0x1000000 := by
      have : (0x1000000 : Nat) = 2 ^ 24 := by norm_num
      omega
    simp [this]
  · intro hlen hch
    unfold convolverCtor
    rw [hmeta]
    have h1 : ¬ len > 0x1000000 := by
      have : (0x1000000 : Nat) = 2 ^ 24 := by norm_num
      omega
    have h2 : chans ≠ 0 := by omega
    simp [h1, h2]
  · intro hch
    unfold convolverCtor
    rw [hmeta, hch]
    simp
  · intro hnone
    unfold loadIrWorker
    rw [hoff, hnone]
    exact ⟨rfl, rfl⟩

/-- Witness for C10 at the concrete environment: 2^24 + 1 samples rejected,
exactly 2^24 accepted, zero channels rejected. -/
theorem c10_witness :
    convolverCtor envC10 "big" = none ∧
    (∃ e, convolverCtor envC10 "exact" = some e ∧ e.irLen = 2 ^ 24 ∧ e.irChans = 1) ∧
    convolverCtor envC10 "nochan" = none ∧
    (loadIrWorker envC10 facC2 "big").1.offline = none := by
  have hbig := c10_ir_length_limit envC10 "big" 0x1000001 1 facC2 (by rfl) rfl
  have hexact := c10_ir_length_limit envC10 "exact" 0x1000000 1 facC2 (by rfl) rfl
  have hnochan := c10_ir_length_limit envC10 "nochan" 5 0 facC2 (by rfl) rfl
  have h1 : convolverCtor envC10 "big" = none := hbig.1 (by norm_num)
  refine ⟨h1, ?_, hnochan.2.2.1 rfl, (hbig.2.2.2 h1).1⟩
  have := hexact.2.1 (by norm_num) (by norm_num)
  simpa using this

/-! ### Claim C2 -/

theorem engineReconfigure_ready (b : Nat) (th : Bool) (e : Engine) :
    (engineReconfigure b th e).ready = true := rfl

theorem runEvents_cons (env : IREnv) (s : Facade) (e : Ev) (es : List Ev) :
    runEvents env s (e :: es) =
      ((runEvents env (stepEv env s e).1 es).1,
       (stepEv env s e).2 ++ (runEvents env (stepEv env s e).1 es).2) := by
  simp [runEvents]

theorem runEvents_append (env : IREnv) (s : Facade) (l1 l2 : List Ev) :
    runEvents env s (l1 ++ l2) =
      ((runEvents env (runEvents env s l1).1 l2).1,
       (runEvents env s l1).2 ++ (runEvents env (runEvents env s l1).1 l2).2) := by
  induction l1 generalizing s with
  | nil => simp [runEvents]
  | cons e es ih =>
      simp only [List.cons_append, runEvents_cons, ih, List.append_assoc]

theorem loads_queue (env : IREnv) (ps : List String) (s : Facade)
    (h : s.offline.isSome) :
    runEvents env s (ps.map Ev.load) =
      ({ s with queued := ps.getLastD s.queued }, []) := by
  induction ps generalizing s with
  | nil => simp [runEvents]
  | cons p ps ih =>
      have hstep : stepEv env s (.load p) = ({ s with queued := p }, []) := by
        simp [stepEv, loadIrWorker, h]
      rw [List.map_cons, runEvents_cons, hstep]
      rw [ih { s with queued := p } (by simpa using h)]
      dsimp only
      rw [List.getLastD_cons]
      simp

/-- C2: load-request coalescing.  Starting from a facade with an online
engine and an idle offline slot, a load for `h₁` starts the only build; all
loads arriving while the offline engine exists merely overwrite the
one-slot queue (no construction starts, second conjunct), and the queued
path — the last one, `hₙ` — is built exactly when the `FREE` command is
processed: the full cycle performs exactly the two builds `h₁` and `hₙ`. -/
theorem c2_load_coalescing (env : IREnv) (s : Facade) (e0 e1 en : Engine)
    (h1 hn : String) (rest : List String)
    (hon : s.online = some e0) (hoff : s.offline = none) (hq : s.queued = "")
    (hql : rest.getLastD "" = hn)
    (hb1 : convolverCtor env h1 = some e1)
    (hbn : convolverCtor env hn = some en)
    (hlast : hn ≠ "") :
    (runEvents env s
       (Ev.load h1 :: (rest.map Ev.load ++ [Ev.applyResp, Ev.freeCmd]))).2
      = [h1, hn] ∧
    (runEvents env s (Ev.load h1 :: rest.map Ev.load)).2 = [h1] := by
  have hs1 : stepEv env s (.load h1) =
      ({ s with offline := some (engineReconfigure s.blockSize true e1) }, [h1]) := by
    simp [stepEv, loadIrWorker, hoff, hb1, engineReconfigure_ready]
  have hmid := loads_queue env rest
      { s with offline := some (engineReconfigure s.blockSize true e1), queued := "" }
      (by simp)
  dsimp only at hmid
  rw [hql] at hmid
  have hs3 : stepEv env
      { s with offline := some (engineReconfigure s.blockSize true e1)
               queued := hn } .applyResp =
      ({ s with
          online := some { engineReconfigure s.blockSize true e1 with
                             gain := { dbDry := s.dbDry, dbWet := s.dbWet } }
          offline := s.online
          queued := hn
          psetDirty := true }, []) := by
    simp [stepEv, workResponse]
  have hs4 : stepEv env
      ({ s with
          online := some { engineReconfigure s.blockSize true e1 with
                             gain := { dbDry := s.dbDry, dbWet := s.dbWet } }
          offline := s.online
          queued := hn
          psetDirty := true }) .freeCmd =
      ({ s with
          online := some { engineReconfigure s.blockSize true e1 with
                             gain := { dbDry := s.dbDry, dbWet := s.dbWet } }
          offline := some (engineReconfigure s.blockSize true en)
          queued := ""
          psetDirty := true }, [hn]) := by
    simp [stepEv, workFree, hlast, loadIrWorker, hbn, engineReconfigure_ready]
  constructor
  · rw [runEvents_cons, hs1]
    dsimp only
    rw [hq, runEvents_append, hmid]
    dsimp only
    rw [runEvents_cons, hs3]
    dsimp only
    rw [runEvents_cons, hs4]
    simp [runEvents]
  · rw [runEvents_cons, hs1]
    dsimp only
    rw [hq, hmid]
    simp

/-- Witness for C2: three load requests `a, b, c` in one build cycle in an
environment where every IR opens; only `a` and `c` are built, `b` is
dropped. -/
theorem c2_witness :
    (runEvents envOk facC2
       (Ev.load "a" :: ([ "b", "c" ].map Ev.load ++ [Ev.applyResp, Ev.freeCmd]))).2
      = ["a", "c"] ∧
    (runEvents envOk facC2 (Ev.load "a" :: [ "b", "c" ].map Ev.load)).2 = ["a"] := by
  have h := c2_load_coalescing envOk facC2 engFix
      ((convolverCtor envOk "a").get (by decide))
      ((convolverCtor envOk "c").get (by decide))
      "a" "c" ["b", "c"] rfl rfl rfl (by decide) (by decide) (by decide) (by decide)
  simpa using h

/-! ### Claim C9 -/

/-- C9: invariant I6.  One execution of the per-cycle processing step
(`Convlevel::process`) advances `_ptind` by exactly one, wrapping modulo
`_npar`; `readout` changes it only through its synchronous inline
`process` call; `readtail`, `impdata_write`, `impdata_clear` and `stop`
leave it alone; `reset` sets it to 0. -/
theorem c9_ptind_advance (fftR2C : (Nat → Sample) → (Nat → Cpx))
    (fftC2R : (Nat → Cpx) → (Nat → Sample)) (inpbuff : Nat → Nat → Sample)
    (L : Convlevel) (outbuff : Nat → Nat → Sample)
    (n inpsize outsize inp out : Nat) (st : Int) (data : Int → Sample)
    (i0 i1 : Int) (cr : Bool)
    (h : L.ptind < L.npar) :
    (L.process fftR2C fftC2R inpbuff).ptind = (L.ptind + 1) % L.npar ∧
    (L.readout fftR2C fftC2R inpbuff outbuff).1.ptind =
      (if L.outoffs + L.outsize = L.parsize ∧ L.stat ≠ .proc
       then (L.ptind + 1) % L.npar else L.ptind) ∧
    (L.readtail outbuff n).1.ptind = L.ptind ∧
    (L.impdata_write fftR2C inp out st data i0 i1 cr).ptind = L.ptind ∧
    (L.impdata_clear inp out).ptind = L.ptind ∧
    L.stop.ptind = L.ptind ∧
    (L.reset inpsize outsize).ptind = 0 := by
  have hproc : (L.process fftR2C fftC2R inpbuff).ptind = (L.ptind + 1) % L.npar := by
    have hp : (L.process fftR2C fftC2R inpbuff).ptind
        = if L.ptind + 1 = L.npar then 0 else L.ptind + 1 := rfl
    rw [hp]
    by_cases hc : L.ptind + 1 = L.npar
    · rw [if_pos hc, hc, Nat.mod_self]
    · rw [if_neg hc, Nat.mod_eq_of_lt (by omega)]
  refine ⟨hproc, ?_, ?_, ?_, ?_, ?_, rfl⟩
  · by_cases hb : L.outoffs + L.outsize = L.parsize
    · by_cases hstat : L.stat = .proc
      · simp [Convlevel.readout, hb, hstat]
      · simp [Convlevel.readout, hb, hstat, hproc]
    · simp [Convlevel.readout, hb]
  · unfold Convlevel.readtail
    dsimp only
    split <;> rfl
  · simp only [Convlevel.impdata_write]
    split_ifs <;> rfl
  · simp only [Convlevel.impdata_clear]
    split_ifs <;> rfl
  · unfold Convlevel.stop
    split <;> rfl

/-- Witness for C9 at `lvlC9` (`ptind = 1`, `npar = 2`). -/
theorem c9_witness :
    lvlC9.ptind < lvlC9.npar ∧
    (lvlC9.process (fun _ _ => ((0 : ℚ), (0 : ℚ))) (fun _ _ => (0 : ℚ))
        (fun _ _ => 0)).ptind = (lvlC9.ptind + 1) % lvlC9.npar ∧
    (lvlC9.reset 256 64).ptind = 0 := by
  have h := c9_ptind_advance (fun _ _ => ((0 : ℚ), (0 : ℚ))) (fun _ _ => (0 : ℚ))
      (fun _ _ => 0) lvlC9 (fun _ _ => 0) 0 256 64 0 0 0 (fun _ => 0) 0 0 true
      (by decide)
  exact ⟨by decide, h.1, h.2.2.2.2.2.2⟩

/-! ### Claim C8 -/

theorem cadd_eq_add (a b : Cpx) : cadd a b = a + b := rfl

theorem macIdx_eq (ptind npar : Nat) (h : ptind < npar) :
    ∀ j, j ≤ npar → macIdx ptind npar j = (ptind + npar - j) % npar := by
  intro j
  induction j with
  | zero =>
      intro _
      simp only [macIdx, Nat.sub_zero, Nat.add_mod_right]
      exact (Nat.mod_eq_of_lt h).symm
  | succ j ih =>
      intro hj
      have hjle : j ≤ npar := by omega
      have hv1 : 1 ≤ ptind + npar - j := by omega
      have hv2 : ptind + npar - j < 2 * npar := by omega
      have hstep : macIdx ptind npar (j + 1) =
          if macIdx ptind npar j = 0 then npar - 1 else macIdx ptind npar j - 1 := rfl
      rw [hstep, ih hjle]
      have hdm := Nat.div_add_mod (ptind + npar - j) npar
      by_cases hr : (ptind + npar - j) % npar = 0
      · rw [if_pos hr]
        have hdvd : npar ∣ (ptind + npar - j) := Nat.dvd_of_mod_eq_zero hr
        obtain ⟨q, hq⟩ := hdvd
        have hq1 : 1 ≤ q := by
          rcases Nat.eq_zero_or_pos q with h0 | h1
          · rw [h0, Nat.mul_zero] at hq
            omega
          · exact h1
        have hq2 : q < 2 := by
          have : npar * q < npar * 2 := by omega
          exact Nat.lt_of_mul_lt_mul_left this
        have hq3 : q = 1 := by omega
        have hveq : ptind + npar - j = npar := by
          rw [hq, hq3, Nat.mul_one]
        have : ptind + npar - (j + 1) = npar - 1 := by omega
        rw [this, Nat.mod_eq_of_lt (by omega)]
      · rw [if_neg hr]
        have hrlt : (ptind + npar - j) % npar < npar := Nat.mod_lt _ (by omega)
        have hr1 : 1 ≤ (ptind + npar - j) % npar := Nat.one_le_iff_ne_zero.mpr hr
        have hsplit : ptind + npar - (j + 1) =
            ((ptind + npar - j) % npar - 1) + npar * ((ptind + npar - j) / npar) := by
          omega
        rw [hsplit, Nat.add_mul_mod_self_left]
        exact (Nat.mod_eq_of_lt (Nat.lt_of_le_of_lt (Nat.sub_le _ _) hrlt)).symm

theorem intIdx_bridge (ptind npar j : Nat) (h : ptind < npar) (hj : j ≤ npar) :
    ((((ptind : Int) - j) % npar).toNat = (ptind + npar - j) % npar) := by
  have hcast : ((ptind + npar - j : Nat) : Int) = (ptind : Int) - j + npar * 1 := by
    have hle : j ≤ ptind + npar := by omega
    push_cast [Nat.cast_sub hle]
    ring
  have h1 : ((ptind : Int) - j) % npar
      = (((ptind + npar - j : Nat) : Int)) % npar := by
    rw [hcast, Int.add_mul_emod_self_left]
  rw [h1]
  rw [show (((ptind + npar - j : Nat) : Int)) % ((npar : Nat) : Int)
        = (((ptind + npar - j) % npar : Nat) : Int) from (Int.natCast_mod _ _).symm]
  exact Int.toNat_natCast _

theorem macLoop_sum (ffta : Nat → Nat → Cpx) (fftb : Nat → Option (Nat → Cpx))
    (npar parsize ptind : Nat) :
    ∀ (cnt j : Nat) (freq : Nat → Cpx), j + cnt = npar →
      macLoop ffta fftb npar parsize cnt j (macIdx ptind npar j) freq
      = fun k => if k ≤ parsize then
          freq k + ∑ m in Finset.range cnt,
            (match fftb (j + m) with
             | some fb => cmul (ffta (macIdx ptind npar (j + m)) k) (fb k)
             | none => 0)
        else freq k := by
  intro cnt
  induction cnt with
  | zero =>
      intro j freq hj
      funext k
      simp [macLoop]
  | succ cnt ih =>
      intro j freq hj
      have hdec : macLoop ffta fftb npar parsize (cnt + 1) j (macIdx ptind npar j) freq
          = macLoop ffta fftb npar parsize cnt (j + 1) (macIdx ptind npar (j + 1))
              (match fftb j with
               | some fb => fun k =>
                   if k ≤ parsize then cadd (freq k) (cmul (ffta (macIdx ptind npar j) k) (fb k))
                   else freq k
               | none => freq) := by
        rw [macLoop]
        rcases hfb : fftb j with _ | fb <;> simp [hfb, macIdx]
      rw [hdec, ih (j + 1) _ (by omega)]
      funext k
      by_cases hk : k ≤ parsize
      · rw [if_pos hk, if_pos hk]
        have hsum : ∑ m in Finset.range (cnt + 1),
              (match fftb (j + m) with
               | some fb => cmul (ffta (macIdx ptind npar (j + m)) k) (fb k)
               | none => 0)
            = (match fftb j with
               | some fb => cmul (ffta (macIdx ptind npar j) k) (fb k)
               | none => 0)
              + ∑ m in Finset.range cnt,
                (match fftb (j + 1 + m) with
                 | some fb => cmul (ffta (macIdx ptind npar (j + 1 + m)) k) (fb k)
                 | none => 0) := by
          rw [Finset.sum_range_succ', add_comm]
          have hre : (∑ m in Finset.range cnt,
                (match fftb (j + (m + 1)) with
                 | some fb => cmul (ffta (macIdx ptind npar (j + (m + 1))) k) (fb k)
                 | none => 0))
              = ∑ m in Finset.range cnt,
                (match fftb (j + 1 + m) with
                 | some fb => cmul (ffta (macIdx ptind npar (j + 1 + m)) k) (fb k)
                 | none => 0) := by
            apply Finset.sum_congr rfl
            intro m _
            rw [show j + (m + 1) = j + 1 + m from by omega]
          rw [hre, Nat.add_zero]
        rw [hsum]
        rcases hfb : fftb j with _ | fb
        · dsimp only
          rw [zero_add]
        · dsimp only
          rw [if_pos hk, cadd_eq_add, add_assoc]
      · rw [if_neg hk, if_neg hk]
        rcases hfb : fftb j with _ | fb
        · rfl
        · dsimp only
          rw [if_neg hk]

theorem outFreq_sum (inpl : List Inpnode) (ptind npar parsize : Nat) :
    ∀ (macs : List Macnode) (freq : Nat → Cpx),
      macs.foldl
        (fun fr M => macLoop (lookupFfta inpl M.inpn) M.fftb npar parsize npar 0 ptind fr)
        freq
      = fun k => if k ≤ parsize then
          freq k + (macs.map (fun M => ∑ m in Finset.range npar,
            (match M.fftb m with
             | some fb => cmul (lookupFfta inpl M.inpn (macIdx ptind npar m) k) (fb k)
             | none => 0))).sum
        else freq k := by
  intro macs
  induction macs with
  | nil =>
      intro freq
      funext k
      by_cases hk : k ≤ parsize <;> simp [hk]
  | cons M ms ih =>
      intro freq
      rw [List.foldl_cons]
      have h0 : macLoop (lookupFfta inpl M.inpn) M.fftb npar parsize npar 0 ptind freq
          = macLoop (lookupFfta inpl M.inpn) M.fftb npar parsize npar 0
              (macIdx ptind npar 0) freq := rfl
      rw [h0, macLoop_sum (lookupFfta inpl M.inpn) M.fftb npar parsize ptind npar 0 freq
            (by omega)]
      rw [ih]
      funext k
      by_cases hk : k ≤ parsize
      · simp only [if_pos hk, List.map_cons, List.sum_cons, Nat.zero_add]
        rw [add_assoc]
      · simp only [if_neg hk]

/-- C8: partition ordering in the per-level MAC loop.  The ring-walk index
at step `j` equals `(ptind − j) mod n_partitions`, and the `_freq_data`
accumulated for an output node equals, bin by bin (for `k ≤ parsize`), the
sum over its MAC nodes and over partitions `j` of
`ffta[(ptind − j) mod npar] · fftb[j]`; partition `j = 0` thus multiplies
the newest input block (the slot just written), `j = 1` the previous one,
and so on. -/
theorem c8_mac_partition_order (inpl : List Inpnode) (macs : List Macnode)
    (ptind npar parsize : Nat) (h : ptind < npar) :
    (∀ j, j ≤ npar → macIdx ptind npar j = ((((ptind : Int) - j) % npar).toNat)) ∧
    outFreq inpl ptind npar parsize macs = fun k =>
      if k ≤ parsize then
        (macs.map (fun M => ∑ j in Finset.range npar,
          macSpecTerm inpl M ptind npar k j)).sum
      else (0, 0) := by
  have hidx : ∀ j, j ≤ npar →
      macIdx ptind npar j = ((((ptind : Int) - j) % npar).toNat) := by
    intro j hj
    rw [macIdx_eq ptind npar h j hj]
    exact (intIdx_bridge ptind npar j h hj).symm
  refine ⟨hidx, ?_⟩
  unfold outFreq
  rw [outFreq_sum inpl ptind npar parsize macs (fun _ => ((0 : ℚ), (0 : ℚ)))]
  funext k
  by_cases hk : k ≤ parsize
  · rw [if_pos hk, if_pos hk]
    rw [show (((0 : ℚ), (0 : ℚ)) : Cpx) = 0 from rfl, zero_add]
    have hfun : (fun M : Macnode => ∑ m in Finset.range npar,
          (match M.fftb m with
           | some fb => cmul (lookupFfta inpl M.inpn (macIdx ptind npar m) k) (fb k)
           | none => 0))
        = fun M : Macnode => ∑ j in Finset.range npar,
            macSpecTerm inpl M ptind npar k j := by
      funext M
      apply Finset.sum_congr rfl
      intro m hm
      have hmle : m ≤ npar := Nat.le_of_lt (Finset.mem_range.mp hm)
      rcases hfb : M.fftb m with _ | fb
      · simp [macSpecTerm, hfb]
      · simp only [macSpecTerm, hfb]
        rw [hidx m hmle]
    rw [hfun]
  · rw [if_neg hk, if_neg hk]

/-- Witness for C8: `ptind = 1`, `npar = 2`, all partitions present with
unit impulse spectra; ring slot `p` carries spectrum `(p, 0)`, so the
accumulated value records which slots the loop visited. -/
theorem c8_witness :
    (1 : Nat) < 2 ∧
    macIdx 1 2 2 = ((((1 : Int) - 2) % 2).toNat) ∧
    outFreq [inpC8] 1 2 0 [macC8] 0 = (1, 0) := by
  have h := c8_mac_partition_order [inpC8] [macC8] 1 2 0 (by decide)
  refine ⟨by decide, h.1 2 (by decide), ?_⟩
  rw [h.2]
  simp only [List.map_cons, List.map_nil, List.sum_cons, List.sum_nil,
    Finset.sum_range_succ, Finset.sum_range_zero, macSpecTerm, lookupFfta,
    inpC8, macC8, cmul]
  norm_num [Prod.ext_iff]

/-! ### Claim C7 -/

theorem nat_lor_zero (n : Nat) : n.lor 0 = n := by
  simp [Nat.lor]

theorem readout_flag_zero (fftR2C : (Nat → Sample) → (Nat → Cpx))
    (fftC2R : (Nat → Cpx) → (Nat → Sample)) (inpbuff : Nat → Nat → Sample)
    (L : Convlevel) (ob : Nat → Nat → Sample) (hw : L.wait ≤ 1) :
    (L.readout fftR2C fftC2R inpbuff ob).2.2 = 0 ∧
    (L.readout fftR2C fftC2R inpbuff ob).1.wait ≤ 1 := by
  have hpw : (L.process fftR2C fftC2R inpbuff).wait = L.wait := rfl
  unfold Convlevel.readout
  by_cases hb : L.outoffs + L.outsize = L.parsize
  · by_cases hstat : L.stat = .proc
    · simp [hb, hstat]
    · simp [hb, hstat, hpw, hw, Nat.lt_irrefl, Nat.not_lt.mpr hw]
  · simp [hb, hw, Nat.not_lt.mpr hw]

theorem readoutFold_flag (fftR2C : (Nat → Sample) → (Nat → Cpx))
    (fftC2R : (Nat → Cpx) → (Nat → Sample)) (inpbuff : Nat → Nat → Sample) :
    ∀ (ls : List Convlevel) (ob : Nat → Nat → Sample) (f : Nat),
      (∀ L ∈ ls, L.wait ≤ 1) →
      (readoutFold fftR2C fftC2R inpbuff ls ob f).2.2 = f := by
  intro ls
  induction ls with
  | nil => intro ob f _; rfl
  | cons L ls ih =>
      intro ob f hw
      have h0 := readout_flag_zero fftR2C fftC2R inpbuff L ob (hw L (by simp))
      rcases hro : L.readout fftR2C fftC2R inpbuff ob with ⟨L', ob', fk⟩
      rw [hro] at h0
      rw [readoutFold, hro]
      dsimp only
      rw [ih _ _ (fun M hM => hw M (by simp [hM]))]
      rw [show fk = 0 from h0.1, nat_lor_zero]

/-- C7: the claim describes the late-cycle policy, but in this source it
is unreachable.  `Convlevel::readout` returns `(_wait > 1) ? _bits : 0`,
and `_wait` — touched only on the audio thread — never exceeds 1 (the
wrap branch drains it to 0 and re-arms it to 1), so every readout returns
0: at every boundary `process` cycle the OR of readout flags is 0, the
late counter is RESET (never incremented), `stop_process` is never
self-invoked and `FL_LOAD` is never set in the returned value.  The
`_latecnt`/`OPT_LATE_CONTIN`/`FL_LOAD` bookkeeping in `Convproc::process`
matches the claim's text but is dead code. -/
theorem c7_late_counter_unreachable (fftR2C : (Nat → Sample) → (Nat → Cpx))
    (fftC2R : (Nat → Cpx) → (Nat → Sample)) (S : Convproc)
    (hw : ∀ L ∈ S.levels, L.wait ≤ 1)
    (hst : S.state = .proc) (hb : S.outoffs + S.quantum = S.minpart) :
    (∀ L ∈ S.levels, ∀ ob, (L.readout fftR2C fftC2R S.inpbuff ob).2.2 = 0) ∧
    (S.process fftR2C fftC2R).2 = 0 ∧
    (S.process fftR2C fftC2R).1.latecnt = 0 ∧
    (S.process fftR2C fftC2R).1.state = .proc ∧
    (S.process fftR2C fftC2R).2 &&& FL_LOAD = 0 := by
  have hro : ∀ L ∈ S.levels, ∀ ob, (L.readout fftR2C fftC2R S.inpbuff ob).2.2 = 0 :=
    fun L hL ob => (readout_flag_zero fftR2C fftC2R S.inpbuff L ob (hw L hL)).1
  have hcond : ¬ S.state ≠ CState.proc := by simp [hst]
  have hff := readoutFold_flag fftR2C fftC2R S.inpbuff S.levels
      (fun c i => if c < S.nout ∧ i < S.minpart then 0 else S.outbuff c i) 0 hw
  refine ⟨hro, ?_⟩
  rcases hfold : readoutFold fftR2C fftC2R S.inpbuff S.levels
      (fun c i => if c < S.nout ∧ i < S.minpart then 0 else S.outbuff c i) 0 with
    ⟨ls', ob', f0⟩
  have hf0 : f0 = 0 := by
    rw [hfold] at hff
    exact hff
  subst hf0
  simp only [Convproc.process]
  rw [if_neg hcond, if_pos hb, hfold]
  dsimp only
  simp [hst]

/-- Witness for C7 at `procC7`: at an output boundary in `PROC`, with a
level whose worker is outstanding (`wait = 1`) and four prior late cycles
on the books, the claim predicts a fifth late cycle — self-stop and
`FL_LOAD` — but the code returns flag 0, resets the counter and stays in
`PROC`. -/
theorem c7_witness :
    procC7.latecnt = 4 ∧ lvlC7.wait = 1 ∧
    (procC7.process (fun _ _ => ((0 : ℚ), (0 : ℚ))) (fun _ _ => (0 : ℚ))).2 = 0 ∧
    (procC7.process (fun _ _ => ((0 : ℚ), (0 : ℚ))) (fun _ _ => (0 : ℚ))).1.latecnt = 0 ∧
    (procC7.process (fun _ _ => ((0 : ℚ), (0 : ℚ))) (fun _ _ => (0 : ℚ))).1.state = .proc := by
  have h := c7_late_counter_unreachable (fun _ _ => ((0 : ℚ), (0 : ℚ)))
      (fun _ _ => (0 : ℚ)) procC7 (by intro L hL; simp [procC7] at hL; simp [hL, lvlC7])
      rfl rfl
  exact ⟨rfl, rfl, h.2.1, h.2.2.1, h.2.2.2.1⟩

/-! ### Claim C4 -/

theorem addTails_apply (opind outoffs cnt : Nat) :
    ∀ (outl : List Outnode) (ob : Nat → Nat → Sample) (c i : Nat),
      addTails outl opind outoffs cnt ob c i
        = ob c i + (outl.map (fun Y =>
            if c = Y.out ∧ i < cnt then Y.buff opind (outoffs + i) else 0)).sum := by
  intro outl
  induction outl with
  | nil => intro ob c i; simp [addTails]
  | cons Y ys ih =>
      intro ob c i
      simp only [addTails, List.foldl_cons] at ih ⊢
      rw [ih]
      simp only [List.map_cons, List.sum_cons]
      by_cases hc : c = Y.out ∧ i < cnt
      · rw [if_pos hc, if_pos hc]
        ring
      · rw [if_neg hc, if_neg hc]
        ring

theorem readtail_eq (L : Convlevel) (ob : Nat → Nat → Sample) (n : Nat) :
    L.readtail ob n
      = ((if L.outoffs + L.outsize = L.parsize then { L with wait := 0 } else L),
         addTails L.outList (tailOp L) (tailOff L) n ob, 0) := rfl

theorem readtailFold_eq (n : Nat) :
    ∀ (ls : List Convlevel) (ob : Nat → Nat → Sample) (f : Nat),
      readtailFold n ls ob f
        = (ls.map (fun L =>
             if L.outoffs + L.outsize = L.parsize then { L with wait := 0 } else L),
           (fun c i => ob c i + (ls.map (fun L => tailContrib L n c i)).sum),
           f) := by
  intro ls
  induction ls with
  | nil =>
      intro ob f
      rw [readtailFold]
      refine congrArg₂ Prod.mk rfl (congrArg₂ Prod.mk ?_ rfl)
      funext c i
      simp
  | cons L ls ih =>
      intro ob f
      rw [readtailFold, readtail_eq]
      dsimp only
      rw [ih]
      dsimp only
      refine congrArg₂ Prod.mk ?_ (congrArg₂ Prod.mk ?_ ?_)
      · rw [List.map_cons]
      · funext c i
        rw [addTails_apply]
        rw [List.map_cons, List.sum_cons, tailContrib]
        ring
      · rw [nat_lor_zero]

/-- C4 counterexample: `procC4` is in `PROC` at a `tailonly` boundary and
its only level is the smallest-partition one (`parsize = minpart`), whose
pre-computed tail holds 7.  The claim says the smallest-partition level is
skipped — only tails of *larger* levels mixed — which here predicts an
all-zero accumulator; the code mixes that level's tail and yields 7. -/
theorem c4_counterexample :
    procC4.state = .proc ∧
    procC4.outoffs + procC4.quantum = procC4.minpart ∧
    lvlC4.parsize = procC4.minpart ∧
    (procC4.tailonly 32).1.outbuff 0 0 = 7 ∧ (7 : ℚ) ≠ 0 := by
  refine ⟨rfl, rfl, rfl, ?_, by norm_num⟩
  simp only [Convproc.tailonly]
  rw [if_neg (show ¬ procC4.state ≠ CState.proc by simp [procC4])]
  rw [if_pos (show procC4.outoffs + procC4.quantum = procC4.minpart from rfl)]
  rw [readtailFold_eq]
  dsimp only
  norm_num [procC4, lvlC4, tailContrib, tailOp, tailOff]

/-- C4 as amended: at a `tailonly (n)` boundary in `PROC`, the first `n`
samples of every accumulator are zeroed and then the pre-computed tails of
**all** levels — the smallest-partition level included — are mixed in; no
level is triggered to start a new FFT cycle (each level is unchanged apart
from draining `_wait`; `_ptind`, `_opind`, `_outoffs`, the spectra and the
engine offsets all stay), and the returned flag value is 0. -/
theorem c4_tailonly_mixes_all_levels (S : Convproc) (n : Nat)
    (hst : S.state = .proc) (hb : S.outoffs + S.quantum = S.minpart) :
    (S.tailonly n).2 = 0 ∧
    (S.tailonly n).1.state = S.state ∧
    (S.tailonly n).1.outoffs = S.outoffs ∧
    (S.tailonly n).1.inpoffs = S.inpoffs ∧
    (S.tailonly n).1.levels = S.levels.map (fun L =>
        if L.outoffs + L.outsize = L.parsize then { L with wait := 0 } else L) ∧
    (∀ c i, (S.tailonly n).1.outbuff c i =
      (if c < S.nout ∧ i < n then 0 else S.outbuff c i)
        + (S.levels.map (fun L => tailContrib L n c i)).sum) := by
  have hcond : ¬ S.state ≠ CState.proc := by simp [hst]
  simp only [Convproc.tailonly]
  rw [if_neg hcond, if_pos hb]
  rw [readtailFold_eq]
  dsimp only
  exact ⟨rfl, rfl, rfl, rfl, rfl, fun c i => rfl⟩

/-- Witness for C4 (amended) at `procC4` with `n = 32`. -/
theorem c4_witness :
    procC4.state = .proc ∧ procC4.outoffs + procC4.quantum = procC4.minpart ∧
    (procC4.tailonly 32).2 = 0 ∧
    (procC4.tailonly 32).1.outoffs = procC4.outoffs ∧
    (procC4.tailonly 32).1.outbuff 0 0 =
      (if 0 < procC4.nout ∧ 0 < 32 then 0 else procC4.outbuff 0 0)
        + (procC4.levels.map (fun L => tailContrib L 32 0 0)).sum := by
  have h := c4_tailonly_mixes_all_levels procC4 32 rfl rfl
  exact ⟨rfl, rfl, h.1, h.2.2.1, h.2.2.2.2.2 0 0⟩

/-! ### Claim C6 -/

theorem sizeUp_pos (minpart : Nat) :
    ∀ (fuel size : Nat) (prio : Int), 1 ≤ size → 1 ≤ (sizeUp minpart fuel size prio).1 := by
  intro fuel
  induction fuel with
  | zero => intro size prio h; exact h
  | succ fuel ih =>
      intro size prio h
      rw [sizeUp]
      split
      · exact ih _ _ (by omega)
      · exact h

theorem planNpar_pos (cfft cmac : ℚ) (maxsize maxpart offs size s nmin : Nat)
    (ho : offs < maxsize) (hs : 1 ≤ size) (hn : 1 ≤ nmin) :
    1 ≤ planNpar cfft cmac maxsize maxpart offs size s nmin := by
  have hnpar0 : 1 ≤ (maxsize - offs + size - 1) / size := by
    rw [Nat.le_div_iff_mul_le (by omega)]
    omega
  simp only [planNpar]
  split_ifs <;> omega

theorem planLoop_cover (cfft cmac : ℚ) (options step maxsize maxpart : Nat) :
    ∀ (fuel offs size : Nat) (prio : Int) (s nmin : Nat),
      maxsize < offs + fuel → 1 ≤ size → 1 ≤ nmin →
      planChained offs
        (planLoop cfft cmac options step maxsize maxpart fuel offs size prio s nmin).1 ∧
      maxsize ≤ planEnd offs
        (planLoop cfft cmac options step maxsize maxpart fuel offs size prio s nmin).1 := by
  intro fuel
  induction fuel with
  | zero =>
      intro offs size prio s nmin hf hs hn
      rw [planLoop]
      exact ⟨trivial, by simp only [planEnd]; omega⟩
  | succ fuel ih =>
      intro offs size prio s nmin hf hs hn
      rw [planLoop]
      by_cases ho : offs < maxsize
      · rw [if_pos ho]
        have hnp := planNpar_pos cfft cmac maxsize maxpart offs size s nmin ho hs hn
        have hmul : 1 ≤ size * planNpar cfft cmac maxsize maxpart offs size s nmin :=
          Nat.mul_pos (by omega) (by omega)
        by_cases ho2 :
            offs + size * planNpar cfft cmac maxsize maxpart offs size s nmin < maxsize
        · rw [if_pos ho2]
          have hs' : 1 ≤ size <<< s := by
            rw [Nat.shiftLeft_eq]
            exact Nat.mul_pos (by omega) (Nat.pos_pow_of_pos s (by omega))
          have hn' : 1 ≤ (if step = 1 then 2 else 6) := by split_ifs <;> omega
          obtain ⟨hch, hcov⟩ := ih
            (offs + size * planNpar cfft cmac maxsize maxpart offs size s nmin)
            (size <<< s) (prio - (s : Int)) step (if step = 1 then 2 else 6)
            (by omega) hs' hn'
          dsimp only
          refine ⟨⟨rfl, ?_⟩, ?_⟩
          · simpa [Convlevel.mkConfigured] using hch
          · simpa [planEnd, Convlevel.mkConfigured] using hcov
        · rw [if_neg ho2]
          refine ⟨⟨rfl, trivial⟩, ?_⟩
          simp only [planEnd, Convlevel.mkConfigured]
          omega
      · rw [if_neg ho]
        exact ⟨trivial, by simp only [planEnd]; omega⟩

theorem configurePlan_cover (options ninp nout maxsize quantum minpart maxpart : Nat)
    (density : ℚ) (hq : 1 ≤ quantum) :
    planChained 0
      (configurePlan options ninp nout maxsize quantum minpart maxpart density).1 ∧
    maxsize ≤ planEnd 0
      (configurePlan options ninp nout maxsize quantum minpart maxpart density).1 := by
  simp only [configurePlan]
  refine planLoop_cover _ _ _ _ _ _ (maxsize + 1) 0 _ _ _ _ (by omega)
      (sizeUp_pos _ _ _ _ hq) (by split_ifs <;> omega)

/-- C6 counterexample: the claim's error characterisation ("BAD_PARAM iff
channel counts out of range or invariant I1 violated; otherwise it builds
the plan and moves to STOP") fails: `configure (1, 1, 100000, 64, 4096,
4096, 1)` from `IDLE` satisfies I1 (all powers of two, `64 ≤ 4096 ≤ 4096 ≤
MAXPART`) with in-range channel counts, yet the source also requires
`minpart ≤ MAXDIVIS · quantum` (4096 > 16 · 64) and returns `BAD_PARAM`
without building anything. -/
theorem c6_counterexample :
    Convproc.init.state = .idle ∧
    (1 ≤ 1 ∧ 1 ≤ MAXINP ∧ 1 ≤ 1 ∧ 1 ≤ MAXOUT) ∧
    specInvariantI1 64 4096 4096 ∧
    Convproc.init.configure 1 1 100000 64 4096 4096 1 = (Convproc.init, .bad_param) := by
  refine ⟨rfl, by norm_num [MAXINP, MAXOUT], ⟨?_, ?_, ?_, ⟨6, rfl⟩, ⟨12, rfl⟩, ⟨12, rfl⟩⟩, ?_⟩
  · norm_num
  · norm_num
  · norm_num [MAXPART]
  · rfl

/-- C6 as amended: `configure` returns `BAD_STATE` (unchanged state) unless
idle; returns `BAD_PARAM` (unchanged state) exactly on the source's full
validation compound — channel counts in `[1, MAXINP]`/`[1, MAXOUT]`,
invariant I1, **and additionally** `MINQUANT ≤ quantum ≤ MAXQUANT`,
`MINPART ≤ minpart` and `minpart ≤ MAXDIVIS · quantum`; otherwise it
builds the partition plan — cumulative offsets covering `maxsize` — and
moves to `ST_STOP` with the parameters recorded. -/
theorem c6_configure_checks (S : Convproc)
    (ninp nout maxsize quantum minpart maxpart : Nat) (density : ℚ) :
    (S.state ≠ .idle →
      S.configure ninp nout maxsize quantum minpart maxpart density = (S, .bad_state)) ∧
    (S.state = .idle → configParamsBad ninp nout quantum minpart maxpart = true →
      S.configure ninp nout maxsize quantum minpart maxpart density = (S, .bad_param)) ∧
    (S.state = .idle → configParamsBad ninp nout quantum minpart maxpart = false →
      (S.configure ninp nout maxsize quantum minpart maxpart density).2 = .ok ∧
      (S.configure ninp nout maxsize quantum minpart maxpart density).1.state = .stop ∧
      (S.configure ninp nout maxsize quantum minpart maxpart density).1.ninp = ninp ∧
      (S.configure ninp nout maxsize quantum minpart maxpart density).1.nout = nout ∧
      (S.configure ninp nout maxsize quantum minpart maxpart density).1.quantum = quantum ∧
      (S.configure ninp nout maxsize quantum minpart maxpart density).1.minpart = minpart ∧
      (S.configure ninp nout maxsize quantum minpart maxpart density).1.latecnt = 0 ∧
      (S.configure ninp nout maxsize quantum minpart maxpart density).1.nlevels =
        (S.configure ninp nout maxsize quantum minpart maxpart density).1.levels.length ∧
      planChained 0 (S.configure ninp nout maxsize quantum minpart maxpart density).1.levels ∧
      maxsize ≤ planEnd 0
        (S.configure ninp nout maxsize quantum minpart maxpart density).1.levels) := by
  refine ⟨?_, ?_, ?_⟩
  · intro hst
    unfold Convproc.configure
    rw [if_pos hst]
  · intro hst hbad
    unfold Convproc.configure
    rw [if_neg (by simp [hst]), if_pos hbad]
  · intro hst hbad
    have hq : 1 ≤ quantum := by
      have h2 := hbad
      simp only [configParamsBad, MAXINP, MAXOUT, MINQUANT, MAXQUANT, MINPART,
        MAXPART, MAXDIVIS, Bool.or_eq_false_iff, decide_eq_false_iff_not,
        Nat.not_lt, bne_eq_false_iff_eq] at h2
      omega
    have hres : S.configure ninp nout maxsize quantum minpart maxpart density =
        ({ S with
           state := .stop
           ninp := ninp, nout := nout
           quantum := quantum, minpart := minpart
           maxpart := (configurePlan S.options ninp nout maxsize quantum minpart maxpart density).2
           nlevels := (configurePlan S.options ninp nout maxsize quantum minpart maxpart density).1.length
           latecnt := 0
           inpsize := 2 * (configurePlan S.options ninp nout maxsize quantum minpart maxpart density).2
           levels := (configurePlan S.options ninp nout maxsize quantum minpart maxpart density).1
           inpbuff := fun _ _ => 0, outbuff := fun _ _ => 0 }, .ok) := by
      unfold Convproc.configure
      rw [if_neg (by simp [hst]), if_neg (by simp [hbad])]
    rw [hres]
    have hcov := configurePlan_cover S.options ninp nout maxsize quantum minpart maxpart
        density hq
    exact ⟨rfl, rfl, rfl, rfl, rfl, rfl, rfl, rfl, hcov.1, hcov.2⟩

/-- Witness for C6 (amended): a valid configuration from `IDLE`
(mono engine, IR of 256 samples, quantum = minpart = maxpart = 64) returns
0 and moves to `ST_STOP` with a plan covering the IR. -/
theorem c6_witness :
    Convproc.init.state = .idle ∧
    configParamsBad 1 1 64 64 64 = false ∧
    (Convproc.init.configure 1 1 256 64 64 64 1).2 = .ok ∧
    (Convproc.init.configure 1 1 256 64 64 64 1).1.state = .stop ∧
    planChained 0 (Convproc.init.configure 1 1 256 64 64 64 1).1.levels ∧
    256 ≤ planEnd 0 (Convproc.init.configure 1 1 256 64 64 64 1).1.levels := by
  have h := (c6_configure_checks Convproc.init 1 1 256 64 64 64 1).2.2 rfl (by rfl)
  exact ⟨rfl, by rfl, h.1, h.2.1, h.2.2.2.2.2.2.2.2.1, h.2.2.2.2.2.2.2.2.2⟩

end ZConvo
